import Mathlib

/-
Verification of the `command-viewer` extension core.

The development shallowly embeds `commandFs.ts` (the `CommandFileSystemProvider`
class) and the import logic of `extension.ts`.  The in-memory `Map<string,
CommandItem>` is embedded as an association list `List (String × CommandItem)`
whose operations (`has`, `get`, `set`, `delete`) mirror JavaScript `Map`
semantics: `set` overwrites in place on an existing key and appends otherwise,
and iteration order is insertion order.  JavaScript strings are embedded as
Lean `String`; `substring` / `replace` / `startsWith` / `endsWith` act on the
character list (`String.data`), which agrees with the UTF-16 view of the
source on all code points of the Basic Multilingual Plane.  Byte contents
passed to `writeFile` appear here already decoded, since the source decodes
them with `Buffer.from(content).toString('utf8')` before any use.
-/

namespace CommandViewer

/-!
### Decimal numerals

`addCommandItem` builds collision keys with the template literal
`` `${baseName}-${counter}.cmd` ``, i.e. with the decimal representation of the
counter (`Nat.repr` in the embedding).  Termination and the "first free
suffix" characterisation of its `while` loop need injectivity of `Nat.repr`,
which we prove through a fuel-free normal form `natDigits`.
-/

/-- Fuel-free decimal digit-character list of a natural number; agrees with
`Nat.toDigits 10` (the function behind `Nat.repr`). -/
def natDigits (n : Nat) : List Char :=
  if _h : n < 10 then [Nat.digitChar n]
  else natDigits (n / 10) ++ [Nat.digitChar (n % 10)]
termination_by n
decreasing_by exact Nat.div_lt_self (by omega) (by omega)


/-!
### Data model

`CommandItem` is the record interface of `extension.ts`:
`{ name?: string; command: string }`.  The store is the `Map` field
`_commands` of `CommandFileSystemProvider`, embedded as an insertion-ordered
association list.
-/

/-- `interface CommandItem { name?: string; command: string }`. -/
structure CommandItem where
  name : Option String
  command : String
deriving DecidableEq

/-- The in-memory `Map<string, CommandItem>` (`_commands`), in insertion
order. -/
abbrev Store := List (String × CommandItem)

/-- `this._commands.has(k)`. -/
def hasKey (s : Store) (k : String) : Bool :=
  s.any (fun e => e.1 == k)

/-- `this._commands.get(k)` (`undefined` becomes `none`). -/
def getVal (s : Store) (k : String) : Option CommandItem :=
  (s.find? (fun e => e.1 == k)).map Prod.snd

/-- `this._commands.set(k, v)`: overwrite in place when the key exists,
append otherwise. -/
def setVal (s : Store) (k : String) (v : CommandItem) : Store :=
  if hasKey s k then s.map (fun e => if e.1 == k then (k, v) else e)
  else s ++ [(k, v)]

/-- `this._commands.delete(k)`. -/
def eraseKey (s : Store) (k : String) : Store :=
  s.filter (fun e => !(e.1 == k))

/-- `Array.from(this._commands.keys())`. -/
def keys (s : Store) : List String :=
  s.map Prod.fst

/-- `Array.from(this._commands.values())`. -/
def values (s : Store) : List CommandItem :=
  s.map Prod.snd

/-!
### Slug algorithm (`generateFileName`) and collision keys
-/

/-- `s.trim() === ''`: true when the string has no non-whitespace character
(in particular for the empty string, matching JavaScript falsiness of `''`). -/
def isBlank (s : String) : Bool :=
  s.data.all Char.isWhitespace

/-- `command.substring(0, 20).replace(/[^a-zA-Z0-9]/g, '_')`. -/
def cmdSlug (c : String) : String :=
  String.mk ((c.data.take 20).map (fun ch => if ch.isAlphanum then ch else '_'))

/-- The repeated base expression
`item.name && item.name.trim() !== '' ? item.name : item.command.substring(0, 20).replace(/[^a-zA-Z0-9]/g, '_')`
(used both in `generateFileName` and inside the collision loop of
`addCommandItem`, where the `untitled_command` fallback is NOT applied). -/
def loopBase (item : CommandItem) : String :=
  match item.name with
  | some nm => if isBlank nm then cmdSlug item.command else nm
  | none => cmdSlug item.command

/-- `generateFileName` of `commandFs.ts`. -/
def generateFileName (item : CommandItem) : String :=
  let baseName := loopBase item
  (if baseName.length = 0 then "untitled_command" else baseName) ++ ".cmd"

/-- The collision candidate `` `${baseName}-${counter}.cmd` `` built inside
the `while` loop of `addCommandItem`. -/
def candidate (item : CommandItem) (counter : Nat) : String :=
  loopBase item ++ "-" ++ Nat.repr counter ++ ".cmd"

/-- The `while (this._commands.has(uniqueFileName))` loop of
`addCommandItem`, with explicit fuel.  `addKey` runs it with fuel
`s.length + 1`, which is shown below to always suffice. -/
def findFreeKey (s : Store) (item : CommandItem) : Nat → Nat → String
  | 0, counter => candidate item counter
  | fuel + 1, counter =>
    if hasKey s (candidate item counter) then findFreeKey s item fuel (counter + 1)
    else candidate item counter

/-- The unique file name computed by `addCommandItem` before insertion. -/
def addKey (s : Store) (item : CommandItem) : String :=
  let fileName := generateFileName item
  if hasKey s fileName then findFreeKey s item (s.length + 1) 1 else fileName

/-!
### Filesystem adapter operations

Each method of `CommandFileSystemProvider` becomes a function from the store
to an `OpResult`: the returned value or thrown `vscode.FileSystemError`, the
store after the call, the `FileChangeEvent`s fired through `_emitter`, and the
snapshots written to `globalState` by `saveCommandsToGlobalState`.
-/

/-- The `vscode.FileSystemError`s thrown by the adapter. -/
inductive FsError where
  | NotFound
  | AlreadyExists
  | NotADirectory
  | NoPermissions
deriving DecidableEq

/-- Return value or thrown error of one adapter method. -/
inductive FsResult (α : Type) where
  | ok (a : α)
  | error (e : FsError)
deriving DecidableEq

inductive FileType where
  | file
  | directory
deriving DecidableEq

inductive FileChangeType where
  | changed
  | created
  | deleted
deriving DecidableEq

/-- `vscode.FileStat` without the wall-clock `ctime`/`mtime` fields (the
source fills both with `Date.now()`). -/
structure FileStat where
  type : FileType
  size : Nat
deriving DecidableEq

/-- Full effect of one adapter method call. -/
structure OpResult (α : Type) where
  res : FsResult α
  store : Store
  events : List (FileChangeType × String)
  persisted : List (List CommandItem)

/-- `uri.path.substring(1)`: the store key of a path. -/
def pathKey (p : String) : String :=
  String.mk (p.data.drop 1)

/-- `saveCommandsToGlobalState`: persists `Array.from(this._commands.values())`
and fires a `Changed` event on the root path. -/
def saveEvents : List (FileChangeType × String) :=
  [(FileChangeType.changed, "/")]

/-- `loadCommandsFromGlobalState`, applied to a persisted snapshot: clears the
map and inserts each record under its recomputed `generateFileName` key. -/
def loadStore (arr : List CommandItem) : Store :=
  arr.foldl (fun m cmd => setVal m (generateFileName cmd) cmd) []

/-- The snapshot written by `saveCommandsToGlobalState` (keys discarded). -/
def saveStore (s : Store) : List CommandItem :=
  values s

/-- `stat(uri)`. -/
def statOp (s : Store) (p : String) : OpResult FileStat :=
  if p == "/" then
    { res := .ok ⟨FileType.directory, 0⟩, store := s, events := [], persisted := [] }
  else
    match getVal s (pathKey p) with
    | some item =>
      { res := .ok ⟨FileType.file, item.command.utf8ByteSize⟩, store := s,
        events := [], persisted := [] }
    | none =>
      { res := .error .NotFound, store := s, events := [], persisted := [] }

/-- `readDirectory(uri)`. -/
def readDirectoryOp (s : Store) (p : String) : OpResult (List (String × FileType)) :=
  if p == "/" then
    { res := .ok ((keys s).map (fun k => (k, FileType.file))), store := s,
      events := [], persisted := [] }
  else
    { res := .error .NotADirectory, store := s, events := [], persisted := [] }

/-- `readFile(uri)`; the returned bytes appear as the decoded command text. -/
def readFileOp (s : Store) (p : String) : OpResult String :=
  match getVal s (pathKey p) with
  | some item =>
    { res := .ok item.command, store := s, events := [], persisted := [] }
  | none =>
    { res := .error .NotFound, store := s, events := [], persisted := [] }

structure WriteOptions where
  create : Bool
  overwrite : Bool

structure RenameOptions where
  overwrite : Bool

/-- `namePart`: the file name minus a trailing `.cmd`. -/
def stripCmdExt (fn : String) : String :=
  if ".cmd".data.isSuffixOf fn.data then String.mk (fn.data.take (fn.data.length - 4))
  else fn

/-- `namePart.match(/^[a-zA-Z0-9_]{1,20}$/)` is non-null. -/
def slugLike (s : String) : Bool :=
  decide (1 ≤ s.data.length) && decide (s.data.length ≤ 20) &&
    s.data.all (fun c => c.isAlphanum || c == '_')

/-- `s.startsWith(pre)`. -/
def startsWithStr (s pre : String) : Bool :=
  List.isPrefixOf pre.data s.data

/-- The `commandName` computed by `writeFile`: the base name when it does not
look auto-generated and the new content does not start with it, else the
existing record's name when that is truthy (`''` and `undefined` are falsy),
else unset. -/
def writeName (existing : Option CommandItem) (namePart content : String) :
    Option String :=
  if !slugLike namePart && !startsWithStr content namePart then some namePart
  else
    match existing with
    | some r =>
      match r.name with
      | some nm => if nm == "" then none else some nm
      | none => none
    | none => none

/-- `writeFile(uri, content, options)`; `content` is the UTF-8 decoding of the
byte argument (`newCommandContent`). -/
def writeFileOp (s : Store) (p : String) (content : String) (opts : WriteOptions) :
    OpResult Unit :=
  let fileName := pathKey p
  let existing := getVal s fileName
  if !opts.create && existing.isNone then
    { res := .error .NotFound, store := s, events := [], persisted := [] }
  else if existing.isSome && opts.create && !opts.overwrite then
    { res := .error .AlreadyExists, store := s, events := [], persisted := [] }
  else
    let s' := setVal s fileName ⟨writeName existing (stripCmdExt fileName) content, content⟩
    { res := .ok (), store := s',
      events := saveEvents ++ [(FileChangeType.changed, p)], persisted := [values s'] }

/-- `delete(uri, options)` (the `recursive` flag is unused by the source). -/
def deleteOp (s : Store) (p : String) : OpResult Unit :=
  let fileName := pathKey p
  if hasKey s fileName then
    let s' := eraseKey s fileName
    { res := .ok (), store := s',
      events := saveEvents ++ [(FileChangeType.deleted, p)], persisted := [values s'] }
  else
    { res := .error .NotFound, store := s, events := [], persisted := [] }

/-- The `newCommandName` computed by `rename`: default to the old name; on a
changed base name adopt it when it looks user-chosen, clear it when the new
base is blank, otherwise keep the old name. -/
def renameName (oldCommand : CommandItem) (newNamePart oldNamePart : String) :
    Option String :=
  if newNamePart == oldNamePart then oldCommand.name
  else if !slugLike newNamePart && !startsWithStr oldCommand.command newNamePart then
    some newNamePart
  else if isBlank newNamePart then none
  else oldCommand.name

/-- `rename(oldUri, newUri, options)`. -/
def renameOp (s : Store) (oldPath newPath : String) (opts : RenameOptions) :
    OpResult Unit :=
  let oldFileName := pathKey oldPath
  let newFileName := pathKey newPath
  if !(hasKey s oldFileName) then
    { res := .error .NotFound, store := s, events := [], persisted := [] }
  else if hasKey s newFileName && !opts.overwrite then
    { res := .error .AlreadyExists, store := s, events := [], persisted := [] }
  else
    match getVal s oldFileName with
    | none =>
      { res := .error .NotFound, store := s, events := [], persisted := [] }
    | some oldCommand =>
      let s' := setVal (eraseKey s oldFileName) newFileName
        ⟨renameName oldCommand (stripCmdExt newFileName) (stripCmdExt oldFileName),
          oldCommand.command⟩
      { res := .ok (), store := s',
        events := saveEvents ++
          [(FileChangeType.deleted, oldPath), (FileChangeType.created, newPath)],
        persisted := [values s'] }

/-- `addCommandItem(item)`: the result value is the `uniqueFileName` the
record was inserted under (also carried by the fired `Created` event). -/
def addCommandItemOp (s : Store) (item : CommandItem) : OpResult String :=
  let uniqueFileName := addKey s item
  let s' := setVal s uniqueFileName item
  { res := .ok uniqueFileName, store := s',
    events := saveEvents ++ [(FileChangeType.created, "/" ++ uniqueFileName)],
    persisted := [values s'] }

/-- A sequence of `addCommandItem` calls. -/
def addAll (s : Store) (items : List CommandItem) : Store :=
  items.foldl (fun st it => (addCommandItemOp st it).store) s

/-- `existingCmd.name === importedCmd.name && existingCmd.command === importedCmd.command`
(the duplicate test of `importCommands` in `extension.ts`). -/
def dupMatch (e c : CommandItem) : Bool :=
  e.name == c.name && e.command == c.command

/-- The store mutation of `importCommands` in `extension.ts`: records not
duplicating a pre-import record are added through `addCommandItem`, in
order. -/
def importCore (s : Store) (imported : List CommandItem) : Store :=
  let currentCommands := values s
  let newCommands := imported.filter (fun c => !(currentCommands.any (fun e => dupMatch e c)))
  addAll s newCommands

/-- The command-derived base of the slug algorithm as worded by the spec:
first 20 characters of the command, characters outside `[A-Za-z0-9]` replaced
by `_`, with the `untitled_command` fallback when the derived base is empty.
Written from the spec text, for the refinement claim against
`generateFileName`. -/
def specSlugBase (c : String) : String :=
  let b := String.mk ((c.data.take 20).map (fun ch => if ch.isAlphanum then ch else '_'))
  if b = "" then "untitled_command" else b

/-- The spec's `keyFor(record)` (§3), written from the spec text: name
verbatim when present and non-blank, else the command-derived base; suffixed
with `.cmd`.  Compared with the source's `generateFileName` in claim C4. -/
def keyForSpec (r : CommandItem) : String :=
  (match r.name with
   | some nm => if isBlank nm then specSlugBase r.command else nm
   | none => specSlugBase r.command) ++ ".cmd"

/-!
### Decimal numeral lemmas
-/

theorem toDigitsCore_append (fuel : Nat) :
    ∀ (n : Nat) (ds : List Char),
      Nat.toDigitsCore 10 fuel n ds = Nat.toDigitsCore 10 fuel n [] ++ ds := by
  induction fuel with
  | zero => intro n ds; simp [Nat.toDigitsCore]
  | succ fuel ih =>
    intro n ds
    simp only [Nat.toDigitsCore]
    by_cases h : n / 10 = 0
    · simp [h]
    · simp only [h, if_false]
      rw [ih (n / 10) (Nat.digitChar (n % 10) :: ds),
        ih (n / 10) [Nat.digitChar (n % 10)]]
      simp

theorem toDigitsCore_eq_natDigits (fuel : Nat) :
    ∀ n : Nat, n < fuel → Nat.toDigitsCore 10 fuel n [] = natDigits n := by
  induction fuel with
  | zero => intro n h; omega
  | succ fuel ih =>
    intro n h
    rw [natDigits]
    simp only [Nat.toDigitsCore]
    by_cases h10 : n / 10 = 0
    · have hn : n < 10 := by omega
      rw [if_pos h10, dif_pos hn, Nat.mod_eq_of_lt hn]
    · have hn : ¬ n < 10 := by omega
      have hlt : n / 10 < fuel := by
        have := Nat.div_lt_self (show 0 < n by omega) (show 1 < 10 by omega)
        omega
      rw [if_neg h10, dif_neg hn, toDigitsCore_append fuel, ih (n / 10) hlt]

theorem natDigits_lt {n : Nat} (h : n < 10) : natDigits n = [Nat.digitChar n] := by
  rw [natDigits, dif_pos h]

theorem natDigits_ge {n : Nat} (h : ¬ n < 10) :
    natDigits n = natDigits (n / 10) ++ [Nat.digitChar (n % 10)] := by
  rw [natDigits, dif_neg h]

theorem natDigits_ne_nil (n : Nat) : natDigits n ≠ [] := by
  rw [natDigits]
  by_cases h : n < 10 <;> simp [h]

theorem digitChar_toNat (d : Nat) (h : d < 10) : (Nat.digitChar d).toNat = 48 + d := by
  interval_cases d <;> rfl

theorem natDigits_inj (n : Nat) : ∀ (m : Nat), natDigits n = natDigits m → n = m := by
  induction n using Nat.strong_induction_on with
  | _ n ih =>
    intro m h
    by_cases hn : n < 10 <;> by_cases hm : m < 10
    · rw [natDigits_lt hn, natDigits_lt hm] at h
      have h1 : Nat.digitChar n = Nat.digitChar m := by simpa using h
      have e1 := digitChar_toNat n hn
      have e2 := digitChar_toNat m hm
      have : (Nat.digitChar n).toNat = (Nat.digitChar m).toNat := by rw [h1]
      omega
    · rw [natDigits_lt hn, natDigits_ge hm] at h
      have hlen := congrArg List.length h
      have hpos : 0 < (natDigits (m / 10)).length :=
        List.length_pos.mpr (natDigits_ne_nil (m / 10))
      simp only [List.length_append, List.length_cons, List.length_nil] at hlen
      omega
    · rw [natDigits_ge hn, natDigits_lt hm] at h
      have hlen := congrArg List.length h
      have hpos : 0 < (natDigits (n / 10)).length :=
        List.length_pos.mpr (natDigits_ne_nil (n / 10))
      simp only [List.length_append, List.length_cons, List.length_nil] at hlen
      omega
    · rw [natDigits_ge hn, natDigits_ge hm] at h
      obtain ⟨h1, h2⟩ := List.append_inj' h (by simp)
      have hd : n / 10 = m / 10 :=
        ih (n / 10) (Nat.div_lt_self (by omega) (by omega)) (m / 10) h1
      have h2' : Nat.digitChar (n % 10) = Nat.digitChar (m % 10) := by simpa using h2
      have e1 := digitChar_toNat (n % 10) (Nat.mod_lt _ (by omega))
      have e2 := digitChar_toNat (m % 10) (Nat.mod_lt _ (by omega))
      have : (Nat.digitChar (n % 10)).toNat = (Nat.digitChar (m % 10)).toNat := by
        rw [h2']
      omega

theorem asString_data (l : List Char) : (List.asString l).data = l := rfl

theorem natRepr_data (n : Nat) : (Nat.repr n).data = natDigits n := by
  rw [Nat.repr, Nat.toDigits, asString_data,
    toDigitsCore_eq_natDigits (n + 1) n (Nat.lt_succ_self n)]

theorem natRepr_inj {n m : Nat} (h : Nat.repr n = Nat.repr m) : n = m := by
  apply natDigits_inj
  rw [← natRepr_data, ← natRepr_data, h]

/-!
### Map lemmas
-/

theorem hasKey_cons (e : String × CommandItem) (t : Store) (k : String) :
    hasKey (e :: t) k = ((e.1 == k) || hasKey t k) := by
  simp [hasKey]

theorem getVal_cons (e : String × CommandItem) (t : Store) (k : String) :
    getVal (e :: t) k = if e.1 = k then some e.2 else getVal t k := by
  by_cases he : e.1 = k
  · have hb : (e.1 == k) = true := beq_iff_eq.mpr he
    simp [getVal, List.find?, hb, he]
  · have hb : (e.1 == k) = false := beq_eq_false_iff_ne.mpr he
    simp [getVal, List.find?, hb, he]

theorem hasKey_iff (s : Store) (k : String) : hasKey s k = true ↔ k ∈ keys s := by
  induction s with
  | nil => simp [hasKey, keys]
  | cons e t ih =>
    rw [hasKey_cons]
    by_cases he : e.1 = k
    · simp [keys, he]
    · have hb : (e.1 == k) = false := beq_eq_false_iff_ne.mpr he
      have hk : ¬ k = e.1 := fun hx => he hx.symm
      simp only [hb, Bool.false_or, keys, List.map_cons, List.mem_cons]
      rw [ih]
      simp [keys, hk]

theorem hasKey_eq_isSome (s : Store) (k : String) :
    hasKey s k = (getVal s k).isSome := by
  induction s with
  | nil => simp [hasKey, getVal]
  | cons e t ih =>
    by_cases he : e.1 = k
    · have hb : (e.1 == k) = true := beq_iff_eq.mpr he
      simp [hasKey_cons, getVal_cons, he, hb]
    · have hb : (e.1 == k) = false := beq_eq_false_iff_ne.mpr he
      simp [hasKey_cons, getVal_cons, he, hb, ih]

theorem getVal_replace (s : Store) (k : String) (v : CommandItem)
    (h : hasKey s k = true) :
    getVal (s.map (fun e => if e.1 == k then (k, v) else e)) k = some v := by
  induction s with
  | nil => simp [hasKey] at h
  | cons e t ih =>
    by_cases he : e.1 = k
    · have h1 : (if (e.1 == k) = true then (k, v) else e) = (k, v) := by
        simp [beq_iff_eq.mpr he]
      rw [List.map_cons, h1, getVal_cons, if_pos rfl]
    · have h1 : (if (e.1 == k) = true then (k, v) else e) = e := by
        simp [beq_eq_false_iff_ne.mpr he]
      have hh : hasKey t k = true := by
        simpa [hasKey_cons, beq_eq_false_iff_ne.mpr he] using h
      rw [List.map_cons, h1, getVal_cons, if_neg he]
      exact ih hh

theorem getVal_replace_ne (s : Store) (k k' : String) (v : CommandItem)
    (h : k' ≠ k) :
    getVal (s.map (fun e => if e.1 == k then (k, v) else e)) k' = getVal s k' := by
  induction s with
  | nil => rfl
  | cons e t ih =>
    by_cases he : e.1 = k
    · have h1 : (if (e.1 == k) = true then (k, v) else e) = (k, v) := by
        simp [beq_iff_eq.mpr he]
      have h2 : ¬ (k : String) = k' := fun hx => h hx.symm
      have h3 : ¬ e.1 = k' := by rw [he]; exact h2
      rw [List.map_cons, h1, getVal_cons, getVal_cons, if_neg h3]
      exact if_neg h2 ▸ ih
    · have h1 : (if (e.1 == k) = true then (k, v) else e) = e := by
        simp [beq_eq_false_iff_ne.mpr he]
      rw [List.map_cons, h1, getVal_cons, getVal_cons, ih]

theorem getVal_find_none (s : Store) (k : String) (h : hasKey s k = false) :
    List.find? (fun e => e.1 == k) s = none := by
  have h1 := hasKey_eq_isSome s k
  rw [h] at h1
  have h2 : getVal s k = none := by
    cases hg : getVal s k
    · rfl
    · rw [hg] at h1; simp at h1
  exact Option.map_eq_none'.mp h2

theorem getVal_append_single_self (s : Store) (k : String) (v : CommandItem)
    (h : hasKey s k = false) :
    getVal (s ++ [(k, v)]) k = some v := by
  unfold getVal
  rw [List.find?_append, getVal_find_none s k h]
  simp [List.find?]

theorem getVal_append_single_ne (s : Store) (k k' : String) (v : CommandItem)
    (h : k' ≠ k) :
    getVal (s ++ [(k, v)]) k' = getVal s k' := by
  unfold getVal
  rw [List.find?_append]
  have h1 : List.find? (fun e => e.1 == k') [(k, v)] = none := by
    simp [List.find?, beq_eq_false_iff_ne.mpr (fun hx => h hx.symm)]
  rw [h1]
  cases List.find? (fun e => e.1 == k') s <;> rfl

theorem getVal_setVal_self (s : Store) (k : String) (v : CommandItem) :
    getVal (setVal s k v) k = some v := by
  unfold setVal
  by_cases h : hasKey s k
  · simpa [h] using getVal_replace s k v h
  · have hf : hasKey s k = false := by simpa using h
    simp only [hf, Bool.false_eq_true, if_false]
    exact getVal_append_single_self s k v hf

theorem getVal_setVal_ne (s : Store) (k k' : String) (v : CommandItem)
    (h : k' ≠ k) :
    getVal (setVal s k v) k' = getVal s k' := by
  unfold setVal
  by_cases hk : hasKey s k
  · simpa [hk] using getVal_replace_ne s k k' v h
  · have hf : hasKey s k = false := by simpa using hk
    simp only [hf, Bool.false_eq_true, if_false]
    exact getVal_append_single_ne s k k' v h

theorem setVal_of_free (s : Store) (k : String) (v : CommandItem)
    (h : hasKey s k = false) : setVal s k v = s ++ [(k, v)] := by
  simp [setVal, h]

theorem keys_append (s : Store) (e : String × CommandItem) :
    keys (s ++ [e]) = keys s ++ [e.1] := by
  simp [keys]

theorem values_append (s : Store) (e : String × CommandItem) :
    values (s ++ [e]) = values s ++ [e.2] := by
  simp [values]

theorem eraseKey_cons (e : String × CommandItem) (t : Store) (k : String) :
    eraseKey (e :: t) k = if e.1 = k then eraseKey t k else e :: eraseKey t k := by
  by_cases he : e.1 = k
  · simp [eraseKey, List.filter, beq_iff_eq.mpr he, he]
  · simp [eraseKey, List.filter, beq_eq_false_iff_ne.mpr he, he]

theorem getVal_erase_self (s : Store) (k : String) :
    getVal (eraseKey s k) k = none := by
  induction s with
  | nil => rfl
  | cons e t ih =>
    rw [eraseKey_cons]
    by_cases he : e.1 = k
    · rw [if_pos he]; exact ih
    · rw [if_neg he, getVal_cons, if_neg he]; exact ih

theorem getVal_erase_ne (s : Store) (k k' : String) (h : k' ≠ k) :
    getVal (eraseKey s k) k' = getVal s k' := by
  induction s with
  | nil => rfl
  | cons e t ih =>
    rw [eraseKey_cons]
    by_cases he : e.1 = k
    · have h3 : ¬ e.1 = k' := by rw [he]; exact fun hx => h hx.symm
      rw [if_pos he, getVal_cons, if_neg h3]; exact ih
    · rw [if_neg he, getVal_cons, getVal_cons, ih]

/-!
### The collision loop of `addCommandItem`
-/

theorem candidate_inj (item : CommandItem) {n m : Nat}
    (h : candidate item n = candidate item m) : n = m := by
  unfold candidate at h
  have hd := congrArg String.data h
  simp only [String.data_append] at hd
  have h1 := List.append_cancel_right hd
  have h2 := List.append_cancel_left h1
  exact natRepr_inj (String.ext h2)

/-- Among any `s.length + 1` consecutive candidate keys at least one is not in
the store: the loop of `addCommandItem` always terminates within that fuel. -/
theorem exists_free_candidate (s : Store) (item : CommandItem) (counter : Nat) :
    ∃ j, j < s.length + 1 ∧ hasKey s (candidate item (counter + j)) = false := by
  by_contra hc
  push_neg at hc
  have hall : ∀ j, j < s.length + 1 →
      candidate item (counter + j) ∈ (keys s).toFinset := by
    intro j hj
    rw [List.mem_toFinset, ← hasKey_iff]
    cases hx : hasKey s (candidate item (counter + j))
    · exact absurd hx (hc j hj)
    · rfl
  have hinj : Set.InjOn (fun j => candidate item (counter + j))
      ↑(Finset.range (s.length + 1)) := by
    intro a _ b _ hab
    have := candidate_inj item hab
    omega
  have hcard := Finset.card_le_card_of_injOn (fun j => candidate item (counter + j))
    (fun a ha => hall a (Finset.mem_range.mp ha)) hinj
  rw [Finset.card_range] at hcard
  have hle : (keys s).toFinset.card ≤ (keys s).length := List.toFinset_card_le _
  have hlen : (keys s).length = s.length := List.length_map _ _
  omega

/-- The fueled loop returns the first free candidate at or after `counter`,
provided some candidate within the fuel window is free. -/
theorem findFreeKey_spec (s : Store) (item : CommandItem) :
    ∀ (fuel counter : Nat),
      (∃ j, j < fuel ∧ hasKey s (candidate item (counter + j)) = false) →
      ∃ j, hasKey s (candidate item (counter + j)) = false ∧
        (∀ i, i < j → hasKey s (candidate item (counter + i)) = true) ∧
        findFreeKey s item fuel counter = candidate item (counter + j) := by
  intro fuel
  induction fuel with
  | zero =>
    intro counter hex
    obtain ⟨j, hj, _⟩ := hex
    omega
  | succ fuel ih =>
    intro counter hex
    by_cases hc : hasKey s (candidate item counter) = true
    · obtain ⟨j, hj, hfree⟩ := hex
      have hj0 : j ≠ 0 := by
        intro h0
        rw [h0, Nat.add_zero] at hfree
        rw [hc] at hfree
        cases hfree
      have hex' : ∃ j', j' < fuel ∧
          hasKey s (candidate item ((counter + 1) + j')) = false := by
        refine ⟨j - 1, by omega, ?_⟩
        have hj1 : (counter + 1) + (j - 1) = counter + j := by omega
        rw [hj1]; exact hfree
      obtain ⟨j', hfree', hmin', heq'⟩ := ih (counter + 1) hex'
      refine ⟨j' + 1, ?_, ?_, ?_⟩
      · have hj1 : counter + (j' + 1) = (counter + 1) + j' := by omega
        rw [hj1]; exact hfree'
      · intro i hi
        cases i with
        | zero => simpa using hc
        | succ i' =>
          have hj1 : counter + (i' + 1) = (counter + 1) + i' := by omega
          rw [hj1]; exact hmin' i' (by omega)
      · simp only [findFreeKey]
        rw [if_pos hc, heq']
        congr 1
        omega
    · refine ⟨0, ?_, ?_, ?_⟩
      · rw [Nat.add_zero]; simpa using hc
      · intro i hi; omega
      · simp only [findFreeKey]
        rw [if_neg hc, Nat.add_zero]

/-- The key chosen by `addCommandItem` is absent from the store, equals
`generateFileName item` when that is free, and otherwise is the first free
`candidate item n` with `n = 1, 2, …`. -/
theorem addKey_spec (s : Store) (item : CommandItem) :
    hasKey s (addKey s item) = false ∧
    (hasKey s (generateFileName item) = false → addKey s item = generateFileName item) ∧
    (hasKey s (generateFileName item) = true →
      ∃ n, 1 ≤ n ∧ addKey s item = candidate item n ∧
        hasKey s (candidate item n) = false ∧
        ∀ m, 1 ≤ m → m < n → hasKey s (candidate item m) = true) := by
  by_cases hg : hasKey s (generateFileName item) = true
  · obtain ⟨j, hfree, hmin, heq⟩ :=
      findFreeKey_spec s item (s.length + 1) 1 (exists_free_candidate s item 1)
    have haddkey : addKey s item = candidate item (1 + j) := by
      unfold addKey
      rw [if_pos hg]
      exact heq
    refine ⟨?_, ?_, ?_⟩
    · rw [haddkey]; exact hfree
    · intro h; rw [h] at hg; cases hg
    · intro _
      refine ⟨1 + j, by omega, haddkey, hfree, ?_⟩
      intro m h1 hm
      have hm1 : m = 1 + (m - 1) := by omega
      rw [hm1]
      exact hmin (m - 1) (by omega)
  · have hgf : hasKey s (generateFileName item) = false := by simpa using hg
    have haddkey : addKey s item = generateFileName item := by
      unfold addKey
      rw [if_neg hg]
    exact ⟨haddkey ▸ hgf, fun _ => haddkey, fun h => absurd h hg⟩

theorem store_addCommandItemOp (s : Store) (item : CommandItem) :
    (addCommandItemOp s item).store = s ++ [(addKey s item, item)] := by
  unfold addCommandItemOp
  exact setVal_of_free s _ item (addKey_spec s item).1

theorem keys_addCommandItemOp (s : Store) (item : CommandItem) :
    keys (addCommandItemOp s item).store = keys s ++ [addKey s item] := by
  rw [store_addCommandItemOp, keys_append]

theorem values_addCommandItemOp (s : Store) (item : CommandItem) :
    values (addCommandItemOp s item).store = values s ++ [item] := by
  rw [store_addCommandItemOp, values_append]

theorem addAll_cons (s : Store) (it : CommandItem) (t : List CommandItem) :
    addAll s (it :: t) = addAll ((addCommandItemOp s it).store) t := by
  simp [addAll]

theorem nodup_keys_addAll (items : List CommandItem) :
    ∀ s : Store, (keys s).Nodup → (keys (addAll s items)).Nodup := by
  induction items with
  | nil => intro s h; simpa [addAll] using h
  | cons it t ih =>
    intro s h
    rw [addAll_cons]
    apply ih
    rw [keys_addCommandItemOp, List.nodup_append]
    refine ⟨h, List.nodup_singleton _, ?_⟩
    intro a ha hb
    rw [List.mem_singleton] at hb
    subst hb
    rw [← hasKey_iff, (addKey_spec s it).1] at ha
    cases ha

theorem values_addAll (items : List CommandItem) :
    ∀ s : Store, values (addAll s items) = values s ++ items := by
  induction items with
  | nil => intro s; simp [addAll]
  | cons it t ih =>
    intro s
    rw [addAll_cons, ih, values_addCommandItemOp, List.append_assoc,
      List.singleton_append]

/-!
### Load / save and slug helpers
-/

theorem hasKey_append (s t : Store) (k : String) :
    hasKey (s ++ t) k = (hasKey s k || hasKey t k) := by
  simp [hasKey]

theorem getVal_of_hasKey (s : Store) (k : String) (h : hasKey s k = true) :
    ∃ r, getVal s k = some r := by
  have h1 := hasKey_eq_isSome s k
  rw [h] at h1
  cases hg : getVal s k
  · rw [hg] at h1; cases h1
  · exact ⟨_, rfl⟩

theorem getVal_of_not_hasKey (s : Store) (k : String) (h : hasKey s k = false) :
    getVal s k = none := by
  have h1 := hasKey_eq_isSome s k
  rw [h] at h1
  cases hg : getVal s k
  · rfl
  · rw [hg] at h1; cases h1

theorem foldl_setVal_free :
    ∀ (arr : List CommandItem) (acc : Store),
      (arr.map generateFileName).Nodup →
      (∀ c ∈ arr, hasKey acc (generateFileName c) = false) →
      arr.foldl (fun m cmd => setVal m (generateFileName cmd) cmd) acc
        = acc ++ arr.map (fun c => (generateFileName c, c)) := by
  intro arr
  induction arr with
  | nil => intro acc _ _; simp
  | cons a t ih =>
    intro acc hnd hfree
    rw [List.map_cons] at hnd
    obtain ⟨hnotmem, hndt⟩ := List.nodup_cons.mp hnd
    rw [List.foldl_cons, setVal_of_free acc _ a (hfree a (List.mem_cons_self a t)),
      ih (acc ++ [(generateFileName a, a)]) hndt ?_]
    · simp
    · intro c hc
      rw [hasKey_append, hfree c (List.mem_cons_of_mem a hc), Bool.false_or]
      have hne : generateFileName c ≠ generateFileName a := by
        intro hx
        exact hnotmem (hx ▸ List.mem_map_of_mem generateFileName hc)
      simp [hasKey, beq_eq_false_iff_ne.mpr (fun hx => hne hx.symm)]

theorem loadStore_eq (arr : List CommandItem)
    (h : (arr.map generateFileName).Nodup) :
    loadStore arr = arr.map (fun c => (generateFileName c, c)) := by
  unfold loadStore
  rw [foldl_setVal_free arr [] h (fun c _ => rfl)]
  rfl

theorem string_length_eq_zero {s : String} : s.length = 0 ↔ s = "" := by
  constructor
  · intro h
    apply String.ext
    have h1 : s.data.length = 0 := h
    simpa using List.length_eq_zero.mp h1
  · intro h
    rw [h]
    rfl

theorem not_blank_length_ne_zero {nm : String} (h : isBlank nm = false) :
    ¬ nm.length = 0 := by
  intro h0
  rw [string_length_eq_zero.mp h0] at h
  exact absurd h (by decide)

theorem untitled_branch (c : String) :
    (if (cmdSlug c).length = 0 then "untitled_command" else cmdSlug c)
      = (if cmdSlug c = "" then "untitled_command" else cmdSlug c) := by
  by_cases h0 : cmdSlug c = ""
  · rw [if_pos (string_length_eq_zero.mpr h0), if_pos h0]
  · rw [if_neg (fun hx => h0 (string_length_eq_zero.mp hx)), if_neg h0]

theorem generateFileName_eq_keyForSpec (r : CommandItem) :
    generateFileName r = keyForSpec r := by
  obtain ⟨nm0, cmd⟩ := r
  cases nm0 with
  | none =>
    show (if (cmdSlug cmd).length = 0 then "untitled_command" else cmdSlug cmd) ++ ".cmd"
      = specSlugBase cmd ++ ".cmd"
    rw [untitled_branch]
    rfl
  | some nm =>
    by_cases hb : isBlank nm = true
    · show (if (if isBlank nm = true then cmdSlug cmd else nm).length = 0 then "untitled_command"
          else (if isBlank nm = true then cmdSlug cmd else nm)) ++ ".cmd"
        = (if isBlank nm = true then specSlugBase cmd else nm) ++ ".cmd"
      rw [if_pos hb, untitled_branch, if_pos hb]
      rfl
    · have hbf : isBlank nm = false := by simpa using hb
      show (if (if isBlank nm = true then cmdSlug cmd else nm).length = 0 then "untitled_command"
          else (if isBlank nm = true then cmdSlug cmd else nm)) ++ ".cmd"
        = (if isBlank nm = true then specSlugBase cmd else nm) ++ ".cmd"
      rw [if_neg hb, if_neg (not_blank_length_ne_zero hbf), if_neg hb]

theorem readFileOp_res (s : Store) (p : String) :
    (readFileOp s p).res =
      (match getVal s (pathKey p) with
       | some item => FsResult.ok item.command
       | none => FsResult.error FsError.NotFound) := by
  unfold readFileOp
  cases getVal s (pathKey p) <;> rfl

/-!
### Claims
-/

/-- C1, counterexample: the reachable store
`{A.cmd ↦ (A, x), A-1.cmd ↦ (A, y)}` (as produced by two `addCommandItem`
calls) saves both records, but reloading recomputes the slug `A.cmd` for both
and the second overwrites the first, so the reloaded record set is missing
`(A, x)`: the round trip does NOT preserve the record set when recomputed
keys collide on reload. -/
theorem load_save_collision_counterexample :
    CommandItem.mk (some "A") "x" ∈
      values [("A.cmd", ⟨some "A", "x"⟩), ("A-1.cmd", ⟨some "A", "y"⟩)] ∧
    values (loadStore (saveStore
        [("A.cmd", ⟨some "A", "x"⟩), ("A-1.cmd", ⟨some "A", "y"⟩)]))
      = [⟨some "A", "y"⟩] ∧
    CommandItem.mk (some "A") "x" ∉
      values (loadStore (saveStore
        [("A.cmd", ⟨some "A", "x"⟩), ("A-1.cmd", ⟨some "A", "y"⟩)])) :=
  ⟨by decide, by decide, by decide⟩

/-- C1 (amended): `save()` followed by a fresh `load()` reconstructs a mapping
with exactly the saved records (even in the same order) provided the saved
records' recomputed slug keys are pairwise distinct; when they collide,
reload is last-wins and the earlier records of a colliding key are lost. -/
theorem load_save_roundtrip_of_nodup_keys (s : Store)
    (h : ((values s).map generateFileName).Nodup) :
    values (loadStore (saveStore s)) = values s := by
  unfold saveStore
  rw [loadStore_eq (values s) h]
  simp [values, List.map_map]

/-- C1 witness: the round trip at a store whose recomputed keys are distinct. -/
theorem load_save_roundtrip_witness :
    values (loadStore (saveStore
        [("A.cmd", ⟨some "A", "x"⟩), ("B.cmd", ⟨some "B", "y"⟩)]))
      = values [("A.cmd", ⟨some "A", "x"⟩), ("B.cmd", ⟨some "B", "y"⟩)] :=
  load_save_roundtrip_of_nodup_keys _ (by decide)

/-- C2, counterexample: with the store holding key `build.cmd` (name
"Build"), `addCommandItem({name: "Build", command: "npm run build"})`
computes the key `Build.cmd`, which differs from `build.cmd` (the `Map`
lookup is case-sensitive), so NO collision is detected: the record is
inserted under `Build.cmd`, not `Build-1.cmd`. -/
theorem addCommandItem_case_collision_counterexample :
    (addCommandItemOp [("build.cmd", ⟨some "Build", "npm run build"⟩)]
        ⟨some "Build", "npm run build"⟩).res = .ok "Build.cmd" ∧
    keys (addCommandItemOp [("build.cmd", ⟨some "Build", "npm run build"⟩)]
        ⟨some "Build", "npm run build"⟩).store = ["build.cmd", "Build.cmd"] ∧
    hasKey (addCommandItemOp [("build.cmd", ⟨some "Build", "npm run build"⟩)]
        ⟨some "Build", "npm run build"⟩).store "Build-1.cmd" = false :=
  ⟨by decide, by decide, by decide⟩

/-- C2 (amended): the collision and `-1` suffix arise exactly when the store
already holds the computed key `Build.cmd` itself: if `Build.cmd` is present
and `Build-1.cmd` free, `addCommandItem({name: "Build", command: "npm run
build"})` inserts under `Build-1.cmd`. -/
theorem addCommandItem_build_suffix (s : Store)
    (h1 : hasKey s "Build.cmd" = true)
    (h2 : hasKey s "Build-1.cmd" = false) :
    addKey s ⟨some "Build", "npm run build"⟩ = "Build-1.cmd" := by
  have hg : generateFileName ⟨some "Build", "npm run build"⟩ = "Build.cmd" := by decide
  have hc : candidate ⟨some "Build", "npm run build"⟩ 1 = "Build-1.cmd" := by decide
  unfold addKey
  rw [hg, if_pos h1]
  simp only [findFreeKey]
  rw [hc]
  simp [h2]

/-- C2 witness: the amended collision scenario at a concrete store. -/
theorem addCommandItem_build_suffix_witness :
    addKey [("Build.cmd", ⟨some "Build", "npm run build"⟩)]
        ⟨some "Build", "npm run build"⟩ = "Build-1.cmd" :=
  addCommandItem_build_suffix _ (by decide) (by decide)

/-- C3: starting from any store with pairwise-distinct keys, any sequence of
`addCommandItem` calls leaves all keys pairwise distinct; moreover each call
inserts under `generateFileName item` when that key is free, and otherwise
under the first free `candidate item n` (the loop-recomputed base with suffix
`-n`), n = 1, 2, …, every earlier candidate being taken. -/
theorem addCommandItem_unique_keys_first_free (s : Store) (items : List CommandItem)
    (h : (keys s).Nodup) :
    (keys (addAll s items)).Nodup ∧
    ∀ item : CommandItem,
      hasKey s (addKey s item) = false ∧
      (hasKey s (generateFileName item) = false →
        addKey s item = generateFileName item) ∧
      (hasKey s (generateFileName item) = true →
        ∃ n, 1 ≤ n ∧ addKey s item = candidate item n ∧
          hasKey s (candidate item n) = false ∧
          ∀ m, 1 ≤ m → m < n → hasKey s (candidate item m) = true) :=
  ⟨nodup_keys_addAll items s h, fun item => addKey_spec s item⟩

/-- C3 witness: three colliding inserts produce the suffix sequence
`-1`, `-2`, and the final key list is duplicate-free. -/
theorem addCommandItem_unique_keys_first_free_witness :
    keys (addAll [] [⟨some "A", "x"⟩, ⟨some "A", "y"⟩, ⟨some "A", "z"⟩])
        = ["A.cmd", "A-1.cmd", "A-2.cmd"] ∧
    (keys (addAll [] [⟨some "A", "x"⟩, ⟨some "A", "y"⟩, ⟨some "A", "z"⟩])).Nodup :=
  ⟨by decide,
    (addCommandItem_unique_keys_first_free []
      [⟨some "A", "x"⟩, ⟨some "A", "y"⟩, ⟨some "A", "z"⟩] (by decide)).1⟩

/-- C4: `generateFileName` is a pure function agreeing pointwise with the
spec's slug algorithm (`keyForSpec`, written from the spec text), and maps
`{name: undefined, command: "git status"}` to `git_status.cmd`. -/
theorem generateFileName_spec :
    (∀ r : CommandItem, generateFileName r = keyForSpec r) ∧
    generateFileName ⟨none, "git status"⟩ = "git_status.cmd" :=
  ⟨generateFileName_eq_keyForSpec, by decide⟩

/-- C5: `writeFile` fails with NotFound exactly when the key is absent and
`create` is false, fails with AlreadyExists exactly when the key exists,
`create` is true and `overwrite` is false, and in every other case succeeds,
upserting at the key a record whose command text is the decoded content. -/
theorem writeFile_error_cases (s : Store) (p content : String) (create ow : Bool) :
    ((writeFileOp s p content ⟨create, ow⟩).res = .error .NotFound ↔
      (create = false ∧ hasKey s (pathKey p) = false)) ∧
    ((writeFileOp s p content ⟨create, ow⟩).res = .error .AlreadyExists ↔
      (hasKey s (pathKey p) = true ∧ create = true ∧ ow = false)) ∧
    (¬(create = false ∧ hasKey s (pathKey p) = false) →
      ¬(hasKey s (pathKey p) = true ∧ create = true ∧ ow = false) →
      (writeFileOp s p content ⟨create, ow⟩).res = .ok () ∧
      (getVal (writeFileOp s p content ⟨create, ow⟩).store (pathKey p)).map
        CommandItem.command = some content) := by
  by_cases hk : hasKey s (pathKey p) = true
  · obtain ⟨r, hr⟩ := getVal_of_hasKey s (pathKey p) hk
    cases create <;> cases ow <;>
      simp [writeFileOp, hr, hk, getVal_setVal_self]
  · have hkf : hasKey s (pathKey p) = false := by simpa using hk
    have hr := getVal_of_not_hasKey s (pathKey p) hkf
    cases create <;> cases ow <;>
      simp [writeFileOp, hr, hkf, getVal_setVal_self]

/-- C5 witness: a successful create on an empty store stores the decoded
content at the path's key. -/
theorem writeFile_error_cases_witness :
    (writeFileOp [] "/a.cmd" "x" ⟨true, true⟩).res = .ok () ∧
    (getVal (writeFileOp [] "/a.cmd" "x" ⟨true, true⟩).store (pathKey "/a.cmd")).map
      CommandItem.command = some "x" :=
  (writeFile_error_cases [] "/a.cmd" "x" true true).2.2 (by decide) (by decide)

/-- C6, counterexample: `rename(a, a, {overwrite: true})` on an existing key
succeeds, and afterwards `readFile(a)` still succeeds with the original
content instead of failing with NotFound — the claim fails for `a = b`. -/
theorem rename_self_counterexample :
    (renameOp [("x.cmd", ⟨none, "echo hi"⟩)] "/x.cmd" "/x.cmd" ⟨true⟩).res = .ok () ∧
    (readFileOp (renameOp [("x.cmd", ⟨none, "echo hi"⟩)] "/x.cmd" "/x.cmd" ⟨true⟩).store
        "/x.cmd").res = .ok "echo hi" :=
  ⟨by decide, by decide⟩

theorem renameOp_store_of_success (s : Store) (a b : String) (ow : Bool)
    (r : CommandItem)
    (h1 : hasKey s (pathKey a) = true)
    (hr : getVal s (pathKey a) = some r)
    (hcond : (hasKey s (pathKey b) && !ow) = false) :
    (renameOp s a b ⟨ow⟩).store
      = setVal (eraseKey s (pathKey a)) (pathKey b)
          ⟨renameName r (stripCmdExt (pathKey b)) (stripCmdExt (pathKey a)),
            r.command⟩ := by
  simp [renameOp, h1, hr, hcond]

/-- C6 (amended): for paths with DISTINCT keys, after a successful rename
`readFile` at the new path returns exactly what `readFile` at the old path
returned before (the command text is carried over unchanged), and `readFile`
at the old path fails with NotFound.  As stated, the claim fails for
`a = b` with `overwrite: true` (see the counterexample). -/
theorem rename_preserves_content (s : Store) (a b : String) (ow : Bool)
    (hk : pathKey a ≠ pathKey b)
    (hsucc : (renameOp s a b ⟨ow⟩).res = .ok ()) :
    (readFileOp (renameOp s a b ⟨ow⟩).store b).res = (readFileOp s a).res ∧
    (readFileOp (renameOp s a b ⟨ow⟩).store a).res = .error .NotFound := by
  by_cases h1 : hasKey s (pathKey a) = true
  case neg =>
    have h1f : hasKey s (pathKey a) = false := by simpa using h1
    have hres : (renameOp s a b ⟨ow⟩).res = .error .NotFound := by
      simp [renameOp, h1f]
    rw [hres] at hsucc
    cases hsucc
  case pos =>
    obtain ⟨r, hr⟩ := getVal_of_hasKey s (pathKey a) h1
    have hcond : (hasKey s (pathKey b) && !ow) = false := by
      cases hb2 : hasKey s (pathKey b)
      · simp
      · cases ow
        · exfalso
          have hres : (renameOp s a b ⟨false⟩).res = .error .AlreadyExists := by
            simp [renameOp, h1, hb2]
          rw [hres] at hsucc
          cases hsucc
        · simp
    have hstore := renameOp_store_of_success s a b ow r h1 hr hcond
    constructor
    · rw [readFileOp_res, readFileOp_res, hstore, getVal_setVal_self, hr]
    · rw [readFileOp_res, hstore, getVal_setVal_ne _ _ _ _ hk, getVal_erase_self]

/-- C6 witness: rename between distinct paths preserves content and frees
the old path. -/
theorem rename_preserves_content_witness :
    (readFileOp (renameOp [("x.cmd", ⟨none, "echo"⟩)] "/x.cmd" "/y.cmd" ⟨false⟩).store
        "/y.cmd").res
      = (readFileOp [("x.cmd", ⟨none, "echo"⟩)] "/x.cmd").res ∧
    (readFileOp (renameOp [("x.cmd", ⟨none, "echo"⟩)] "/x.cmd" "/y.cmd" ⟨false⟩).store
        "/x.cmd").res = .error .NotFound :=
  rename_preserves_content _ _ _ _ (by decide) (by decide)

theorem writeName_else (existing : Option CommandItem) (np content : String)
    (hinv : ∀ r, existing = some r → r.name ≠ some "")
    (hc : (!slugLike np && !startsWithStr content np) = false) :
    writeName existing np content = existing.bind CommandItem.name := by
  unfold writeName
  rw [hc]
  simp only [Bool.false_eq_true, if_false]
  cases existing with
  | none => rfl
  | some r =>
    cases hn : r.name with
    | none => simp [hn]
    | some nm =>
      have hne : nm ≠ "" := fun h0 => (hinv r rfl) (by rw [hn, h0])
      simp [hn, beq_eq_false_iff_ne.mpr hne]

theorem writeName_eq (existing : Option CommandItem) (np content : String)
    (hinv : ∀ r, existing = some r → r.name ≠ some "") :
    writeName existing np content
      = (if slugLike np = false ∧ startsWithStr content np = false
         then some np else existing.bind CommandItem.name) := by
  cases hs1 : slugLike np <;> cases hs2 : startsWithStr content np
  · unfold writeName
    simp [hs1, hs2]
  · rw [writeName_else existing np content hinv (by simp [hs1, hs2])]
    simp [hs1, hs2]
  · rw [writeName_else existing np content hinv (by simp [hs1])]
    simp [hs1]
  · rw [writeName_else existing np content hinv (by simp [hs1])]
    simp [hs1]

/-- C7: on a successful `writeFile` at `<base>.cmd`, the stored name is
`some <base>` when `<base>` fails the 1–20 alphanumeric/underscore slug
pattern and the new command text does not start with `<base>`; otherwise the
pre-existing record's name is preserved (none is stored when no record
existed).  The hypothesis `hinv` is the data-model invariant that a stored
name is never the empty string. -/
theorem writeFile_name_heuristic (s : Store) (p content : String) (create ow : Bool)
    (hinv : ∀ r, getVal s (pathKey p) = some r → r.name ≠ some "")
    (hsucc : (writeFileOp s p content ⟨create, ow⟩).res = .ok ()) :
    getVal (writeFileOp s p content ⟨create, ow⟩).store (pathKey p) =
      some ⟨(if slugLike (stripCmdExt (pathKey p)) = false ∧
              startsWithStr content (stripCmdExt (pathKey p)) = false
             then some (stripCmdExt (pathKey p))
             else (getVal s (pathKey p)).bind CommandItem.name), content⟩ := by
  have hc1 : (!create && (getVal s (pathKey p)).isNone) = false := by
    cases hx : (!create && (getVal s (pathKey p)).isNone)
    · rfl
    · exfalso
      have hres : (writeFileOp s p content ⟨create, ow⟩).res = .error .NotFound := by
        simp [writeFileOp, hx]
      rw [hres] at hsucc
      cases hsucc
  have hc2 : ((getVal s (pathKey p)).isSome && create && !ow) = false := by
    cases hx : ((getVal s (pathKey p)).isSome && create && !ow)
    · rfl
    · exfalso
      have hres : (writeFileOp s p content ⟨create, ow⟩).res = .error .AlreadyExists := by
        simp [writeFileOp, hc1, hx]
      rw [hres] at hsucc
      cases hsucc
  have hstore : (writeFileOp s p content ⟨create, ow⟩).store
      = setVal s (pathKey p)
          ⟨writeName (getVal s (pathKey p)) (stripCmdExt (pathKey p)) content,
            content⟩ := by
    simp [writeFileOp, hc1, hc2]
  rw [hstore, getVal_setVal_self,
    writeName_eq (getVal s (pathKey p)) (stripCmdExt (pathKey p)) content hinv]

/-- C7 witness: `writeFile('/My Task.cmd', "echo hi", {create: true,
overwrite: false})` on the empty store creates `{name: "My Task", command:
"echo hi"}`. -/
theorem writeFile_name_heuristic_witness :
    getVal (writeFileOp [] "/My Task.cmd" "echo hi" ⟨true, false⟩).store
        (pathKey "/My Task.cmd")
      = some ⟨some "My Task", "echo hi"⟩ := by
  have h := writeFile_name_heuristic [] "/My Task.cmd" "echo hi" true false
    (by intro r hr; simp [getVal] at hr) (by decide)
  rw [h]
  decide

/-- C8: `importCommands` appends to the store exactly those imported records
for which no pre-import record matches on both `name` and `command`, in
order; hence a record is added iff no such pre-existing match exists (one
duplicate adds zero entries, one new plus one duplicate adds exactly one). -/
theorem importCommands_dedup (s : Store) (imported : List CommandItem) :
    values (importCore s imported)
      = values s ++
        imported.filter (fun c => !((values s).any (fun e => dupMatch e c))) := by
  unfold importCore
  exact values_addAll _ s

/-- C9: renaming an existing path onto itself without `overwrite` fails with
AlreadyExists, because the existence check on the new key does not exclude
the old key. -/
theorem rename_self_no_overwrite_fails (s : Store) (p : String)
    (h : hasKey s (pathKey p) = true) :
    (renameOp s p p ⟨false⟩).res = .error .AlreadyExists := by
  simp [renameOp, h]

/-- C9 witness: self-rename rejection at a concrete store. -/
theorem rename_self_no_overwrite_fails_witness :
    (renameOp [("x.cmd", ⟨none, "e"⟩)] "/x.cmd" "/x.cmd" ⟨false⟩).res
      = .error .AlreadyExists :=
  rename_self_no_overwrite_fails _ _ (by decide)

/-- C10: `stat`, `readDirectory` and `readFile` leave the store unchanged,
write nothing to the persistence backend and fire no change events, whether
they return or fail. -/
theorem read_ops_frame (s : Store) (p : String) :
    (statOp s p).store = s ∧ (statOp s p).events = [] ∧
      (statOp s p).persisted = [] ∧
    (readDirectoryOp s p).store = s ∧ (readDirectoryOp s p).events = [] ∧
      (readDirectoryOp s p).persisted = [] ∧
    (readFileOp s p).store = s ∧ (readFileOp s p).events = [] ∧
      (readFileOp s p).persisted = [] := by
  have hstat : (statOp s p).store = s ∧ (statOp s p).events = [] ∧
      (statOp s p).persisted = [] := by
    unfold statOp
    split
    · exact ⟨rfl, rfl, rfl⟩
    · cases getVal s (pathKey p) <;> exact ⟨rfl, rfl, rfl⟩
  have hdir : (readDirectoryOp s p).store = s ∧ (readDirectoryOp s p).events = [] ∧
      (readDirectoryOp s p).persisted = [] := by
    unfold readDirectoryOp
    split <;> exact ⟨rfl, rfl, rfl⟩
  have hread : (readFileOp s p).store = s ∧ (readFileOp s p).events = [] ∧
      (readFileOp s p).persisted = [] := by
    unfold readFileOp
    cases getVal s (pathKey p) <;> exact ⟨rfl, rfl, rfl⟩
  exact ⟨hstat.1, hstat.2.1, hstat.2.2, hdir.1, hdir.2.1, hdir.2.2,
    hread.1, hread.2.1, hread.2.2⟩

end CommandViewer
